import Mathlib

/-!
Shallow embedding of the hyperedge-synthesis and hypergraph community-detection
pipeline (scripts 2, 3 and 4 of the repository).

Conventions of the embedding:
* individual identifiers are `ℤ`;
* a hyperedge is a `Finset ℤ` (Python `frozenset` of ids);
* distance values and trait values live in an arbitrary linearly ordered
  type (respectively, linearly ordered commutative ring), standing in for the
  floating-point numbers of the source; only comparisons (respectively, ring
  operations and comparisons) of such values are performed by the code;
* a pandas DataFrame is a list of rows; a distance matrix is a function of the
  row and column positions together with the list of row labels (ids);
* Euclidean-distance comparisons are modelled by squared-distance comparisons
  (squaring is monotone on nonnegative reals, so the induced order on
  neighbours is the same);
* the k-nearest-neighbour query of sklearn (`NearestNeighbors.kneighbors`) is
  modelled as: the k+1 points of the fitted data with the smallest
  (squared distance, row position) in lexicographic order — equal distances
  are returned in data order, and the identifiers attached to the rows play
  no role in the selection, exactly as in the source where the neighbour
  search only ever sees the trait matrix.
-/

/-- Models `unique_hyperedges` of script 2 (`hg-test2.py`, line 35):
`list(set(hyperedge_list))`.  The multiset of distinct elements is what the
Python value determines; the embedding fixes the first-occurrence order, and
every claim about this function is stated at the level of the underlying set
of hyperedges. -/
def unique_hyperedges (hyperedge_list : List (Finset ℤ)) : List (Finset ℤ) :=
  hyperedge_list.dedup

/-- Models the hyperedge-loading loop of script 3 (lines 21–32) and the
identical loop of script 4 (lines 41–51): each loaded list of ids becomes a
set; an edge whose member set is empty is skipped; everything else is kept
for the HyperNetX constructor.  (The `ValueError` branch for non-integer data
is unreachable here because the embedding types the input as lists of
integers.) -/
def hyperedges_for_hnx_constructor (loaded : List (List ℤ)) : List (Finset ℤ) :=
  loaded.filterMap (fun he_list =>
    if he_list.toFinset = ∅ then none else some he_list.toFinset)

/-- Union of the member sets of a list of hyperedges: the node set that
`hnx.Hypergraph` derives from a set system. -/
def nodesOf (es : List (Finset ℤ)) : Finset ℤ :=
  es.foldr (· ∪ ·) ∅

/-- Models the (immutable) `hnx.Hypergraph` object as the code uses it: the
list of hyperedges handed to the constructor, in order (HyperNetX keys them
by position UIDs). -/
structure Hypergraph where
  edgeList : List (Finset ℤ)

/-- Node set of the hypergraph: HyperNetX derives it as the union of the
hyperedges (`H.nodes`). -/
def Hypergraph.nodes (H : Hypergraph) : Finset ℤ :=
  nodesOf H.edgeList

/-- The set of hyperedge member-sets of the hypergraph (provenance and
duplicate UIDs forgotten). -/
def Hypergraph.edgeSet (H : Hypergraph) : Finset (Finset ℤ) :=
  H.edgeList.toFinset

/-- Models the `nodes` field of `hypergraph_structure_data` in script 3
(line 68): `sorted(list(map(int, H.nodes)))`. -/
def export_nodes (H : Hypergraph) : List ℤ :=
  H.nodes.sort (· ≤ ·)

/-- Models the `hyperedges` field of `hypergraph_structure_data` in script 3
(lines 70–112): for each hyperedge UID of `H`, the sorted list of its member
ids, via `H.incidence_dict`. -/
def export_hyperedges (H : Hypergraph) : List (List ℤ) :=
  H.edgeList.map (fun e => e.sort (· ≤ ·))

/-- Models script 4, lines 33–58: load the structure file, convert each
hyperedge to a set of ids skipping empties, exit with an error when no valid
hyperedge remains, otherwise hand the list to `hnx.Hypergraph`.  The loaded
`nodes` entry is read into `nodes_from_file` but plays no part in the
reconstruction, exactly as in the source. -/
def script4_import (nodes_from_file : List ℤ) (raw_hyperedges : List (List ℤ)) :
    Except String Hypergraph :=
  let es := hyperedges_for_hnx_constructor raw_hyperedges
  if es = [] then
    Except.error "No valid hyperedges found in the loaded structure file to construct H."
  else
    Except.ok ⟨es⟩

/-- Models the `node_to_cluster` dictionary of script 4 (lines 84–87): clusters
are visited in order and each node in a cluster is (re)assigned that cluster
index, so a node ends up with the index of the last cluster containing it. -/
def node_cluster (partition : List (Finset ℤ)) (v : ℤ) : Option ℕ :=
  partition.enum.foldl (fun acc p => if v ∈ p.2 then some p.1 else acc) none

/-- Models the cluster-assignment table of script 4 (lines 89–91): one row
`(individual_id, cluster_id)` per assigned node, sorted by `individual_id`. -/
def cluster_assignments (partition : List (Finset ℤ)) : List (ℤ × ℕ) :=
  ((nodesOf partition).sort (· ≤ ·)).filterMap
    (fun v => (node_cluster partition v).map (fun c => (v, c)))

/-- Models the whole of script 4: reconstruct `H` from the structure file and,
when that succeeds, run the community detector (`hmod.kumar`, an external
library routine, abstracted as a function from the hypergraph to a list of
node sets) and tabulate the resulting assignments. -/
def script4_run (nodes_from_file : List ℤ) (raw_hyperedges : List (List ℤ))
    (kumar : Hypergraph → List (Finset ℤ)) : Except String (List (ℤ × ℕ)) :=
  (script4_import nodes_from_file raw_hyperedges).map
    (fun H => cluster_assignments (kumar H))

/-- Models one iteration of the row loop of
`get_genetic_distance_threshold_hyperedges` (script 2, lines 100–104): the
mask `genetic_dist_df.iloc[i] < dist_threshold` selects the column positions
whose entry is strictly below the threshold, `genetic_dist_df.columns[mask]`
turns them into ids, and the resulting id list contributes a hyperedge
exactly when its length reaches `min_size`. -/
def genetic_threshold_row {α : Type} [LinearOrder α] (ids : List ℤ)
    (d : ℕ → ℕ → α) (dist_threshold : α) (min_size : ℕ) (i : ℕ) :
    Option (Finset ℤ) :=
  let close_neighbor_ids :=
    ((List.range ids.length).filter (fun j => d i j < dist_threshold)).map
      (fun j => ids.getD j 0)
  if min_size ≤ close_neighbor_ids.length then some close_neighbor_ids.toFinset
  else none

/-- Models `get_genetic_distance_threshold_hyperedges` of script 2
(lines 96–106): one pass of `genetic_threshold_row` per matrix row, then
deduplication. -/
def get_genetic_distance_threshold_hyperedges {α : Type} [LinearOrder α]
    (ids : List ℤ) (d : ℕ → ℕ → α) (dist_threshold : α) (min_size : ℕ) :
    List (Finset ℤ) :=
  unique_hyperedges
    ((List.range ids.length).filterMap
      (genetic_threshold_row ids d dist_threshold min_size))

/-- Stated from the words of the claim (not from the source), for comparison
with the source function: for each row, collect only the OTHER individuals at
distance strictly below the threshold and emit that set when its size reaches
the minimum. -/
def genetic_threshold_row_as_claimed {α : Type} [LinearOrder α] (ids : List ℤ)
    (d : ℕ → ℕ → α) (dist_threshold : α) (min_size : ℕ) (i : ℕ) :
    Option (Finset ℤ) :=
  let others :=
    ((List.range ids.length).filter
      (fun j => j ≠ i ∧ d i j < dist_threshold)).map (fun j => ids.getD j 0)
  if min_size ≤ others.length then some others.toFinset else none

/-- Stated from the words of the claim: the whole threshold view, built from
`genetic_threshold_row_as_claimed`. -/
def genetic_distance_threshold_view_as_claimed {α : Type} [LinearOrder α]
    (ids : List ℤ) (d : ℕ → ℕ → α) (dist_threshold : α) (min_size : ℕ) :
    List (Finset ℤ) :=
  unique_hyperedges
    ((List.range ids.length).filterMap
      (genetic_threshold_row_as_claimed ids d dist_threshold min_size))

/-- Declarative (finite-set) description of one row of the threshold view as
the code computes it: the set of column positions with entry strictly below
the threshold — the focal position `i` among them whenever its entry is — and
its image under the id labelling, emitted when the number of selected
positions reaches the minimum size. -/
def genetic_threshold_row_spec {α : Type} [LinearOrder α] (ids : List ℤ)
    (d : ℕ → ℕ → α) (dist_threshold : α) (min_size : ℕ) (i : ℕ) :
    Option (Finset ℤ) :=
  let js := (Finset.range ids.length).filter (fun j => d i j < dist_threshold)
  if min_size ≤ js.card then some (js.image (fun j => ids.getD j 0)) else none

/-- Models `get_family_hyperedges` of script 2 (lines 84–94): drop the rows
whose family id is the sentinel `-1`, group the rest by family id (pandas
`groupby` visits the keys in ascending order), and keep each group of at
least `min_family_size` members as a hyperedge; finally deduplicate.  A row
of the individuals table is the pair (individual id, family id). -/
def get_family_hyperedges (individuals : List (ℤ × ℤ)) (min_family_size : ℕ) :
    List (Finset ℤ) :=
  let valid_families := individuals.filter (fun r => r.2 ≠ -1)
  let fam_keys := List.insertionSort (· ≤ ·) (valid_families.map Prod.snd).dedup
  unique_hyperedges (fam_keys.filterMap (fun f =>
    let group := valid_families.filter (fun r => r.2 = f)
    if min_family_size ≤ group.length then some (group.map Prod.fst).toFinset
    else none))

/-- Squared Euclidean distance between two trait vectors (componentwise over
the common prefix, as `zip` does); the source compares Euclidean distances of
equal-length float vectors, and comparing squared distances induces the same
order. -/
def sqdist {α : Type} [LinearOrderedCommRing α] (u v : List α) : α :=
  ((u.zip v).map (fun p => (p.1 - p.2) ^ 2)).sum

/-- Lexicographic comparison of positions by a key and then by the position
itself; total, transitive and antisymmetric, hence sorting by it has a unique
sorted order. -/
def keyLex {α : Type} [LinearOrder α] (f : ℕ → α) (a b : ℕ) : Prop :=
  f a < f b ∨ (f a = f b ∧ a ≤ b)

instance keyLex.instDecidableRel {α : Type} [LinearOrder α] (f : ℕ → α) :
    DecidableRel (keyLex f) :=
  fun a b => inferInstanceAs (Decidable (f a < f b ∨ (f a = f b ∧ a ≤ b)))
instance keyLex.instIsTotal {α : Type} [LinearOrder α] (f : ℕ → α) :
    IsTotal ℕ (keyLex f) where
  total a b := by
    rcases lt_trichotomy (f a) (f b) with h | h | h
    · exact Or.inl (Or.inl h)
    · rcases le_total a b with hab | hab
      · exact Or.inl (Or.inr ⟨h, hab⟩)
      · exact Or.inr (Or.inr ⟨h.symm, hab⟩)
    · exact Or.inr (Or.inl h)

instance keyLex.instIsTrans {α : Type} [LinearOrder α] (f : ℕ → α) :
    IsTrans ℕ (keyLex f) where
  trans a b c hab hbc := by
    rcases hab with h1 | ⟨e1, l1⟩
    · rcases hbc with h2 | ⟨e2, l2⟩
      · exact Or.inl (h1.trans h2)
      · exact Or.inl (h1.trans_eq e2)
    · rcases hbc with h2 | ⟨e2, l2⟩
      · exact Or.inl (e1.trans_lt h2)
      · exact Or.inr ⟨e1.trans e2, l1.trans l2⟩

instance keyLex.instIsAntisymm {α : Type} [LinearOrder α] (f : ℕ → α) :
    IsAntisymm ℕ (keyLex f) where
  antisymm a b hab hba := by
    rcases hab with h1 | ⟨e1, l1⟩
    · rcases hba with h2 | ⟨e2, l2⟩
      · exact absurd (h1.trans h2) (lt_irrefl _)
      · exact absurd (h1.trans_eq e2) (lt_irrefl _)
    · rcases hba with h2 | ⟨e2, l2⟩
      · exact absurd (h2.trans_eq e1) (lt_irrefl _)
      · exact le_antisymm l1 l2


/-- Trait vector of row `i` of the traits table (a table row is the pair
(individual id, trait vector)). -/
def vecOf {α : Type} (traits : List (ℤ × List α)) (i : ℕ) : List α :=
  (traits.getD i (0, [])).2

/-- Individual id of row `i` of the traits table. -/
def idOf {α : Type} (traits : List (ℤ × List α)) (i : ℕ) : ℤ :=
  (traits.getD i (0, [])).1

/-- Neighbour order used for the k-NN query at focal row `i`: ascending
squared distance to row `i`, ties by ascending row position.  This is the
embedding of the sklearn `kneighbors` ranking, which sees only the trait
matrix. -/
def knnOrder {α : Type} [LinearOrderedCommRing α] (traits : List (ℤ × List α))
    (i : ℕ) : ℕ → ℕ → Prop :=
  keyLex (fun j => sqdist (vecOf traits i) (vecOf traits j))

instance knnOrder.instDecidableRel {α : Type} [LinearOrderedCommRing α]
    (traits : List (ℤ × List α)) (i : ℕ) : DecidableRel (knnOrder traits i) :=
  keyLex.instDecidableRel _

instance knnOrder.instIsTotal {α : Type} [LinearOrderedCommRing α]
    (traits : List (ℤ × List α)) (i : ℕ) : IsTotal ℕ (knnOrder traits i) :=
  keyLex.instIsTotal _

instance knnOrder.instIsTrans {α : Type} [LinearOrderedCommRing α]
    (traits : List (ℤ × List α)) (i : ℕ) : IsTrans ℕ (knnOrder traits i) :=
  keyLex.instIsTrans _

instance knnOrder.instIsAntisymm {α : Type} [LinearOrderedCommRing α]
    (traits : List (ℤ × List α)) (i : ℕ) : IsAntisymm ℕ (knnOrder traits i) :=
  keyLex.instIsAntisymm _

/-- Models `nn.kneighbors` of script 2 (lines 52–54) for query row `i`: the
`k + 1` row positions of the fitted data nearest to row `i`. -/
def kneighbors {α : Type} [LinearOrderedCommRing α]
    (traits : List (ℤ × List α)) (k i : ℕ) : List ℕ :=
  (List.insertionSort (knnOrder traits i) (List.range traits.length)).take (k + 1)

/-- Models one entry of the comprehension
`[frozenset(ids[indices[i]]) for i in range(len(indices))]` of script 2
(line 55): the ids attached to the `k + 1` neighbour positions of row `i`. -/
def trait_knn_row {α : Type} [LinearOrderedCommRing α]
    (traits : List (ℤ × List α)) (k i : ℕ) : Finset ℤ :=
  ((kneighbors traits k i).map (idOf traits)).toFinset

/-- Models `get_trait_knn_hyperedges` of script 2 (lines 39–57), on the
unscaled path (`scale_traits=False`; standardisation rescales every
coordinate by population statistics and is irrelevant to the claims treated
here, which fix the trait values directly): one k-NN hyperedge per row, then
deduplication. -/
def get_trait_knn_hyperedges {α : Type} [LinearOrderedCommRing α]
    (traits : List (ℤ × List α)) (k : ℕ) : List (Finset ℤ) :=
  unique_hyperedges
    ((List.range traits.length).map (trait_knn_row traits k))

/-- Stated from the words of the claim (not from the source), for comparison
with the source function: the hyperedge of focal row `i` is the focal
individual together with the ids of its `k` nearest OTHER rows, ties broken
by ascending distance and then ascending IDENTIFIER. -/
def trait_knn_row_as_claimed {α : Type} [LinearOrderedCommRing α]
    (traits : List (ℤ × List α)) (k i : ℕ) : Finset ℤ :=
  let others := (List.range traits.length).filter (fun j => j ≠ i)
  let ranked := List.insertionSort
    (fun a b =>
      sqdist (vecOf traits i) (vecOf traits a) <
          sqdist (vecOf traits i) (vecOf traits b) ∨
        (sqdist (vecOf traits i) (vecOf traits a) =
            sqdist (vecOf traits i) (vecOf traits b) ∧
          idOf traits a ≤ idOf traits b)) others
  insert (idOf traits i) ((ranked.take k).map (idOf traits)).toFinset

/-- The amended per-row description of the trait k-NN view: the focal
individual's id together with the ids of its `k` nearest other rows, ties
broken by ascending squared distance and then ascending ROW POSITION (the
order sklearn actually uses, since the neighbour search never sees the
identifiers). -/
def trait_knn_row_amended {α : Type} [LinearOrderedCommRing α]
    (traits : List (ℤ × List α)) (k i : ℕ) : Finset ℤ :=
  let others := (List.range traits.length).filter (fun x => x != i)
  insert (idOf traits i)
    (((List.insertionSort (knnOrder traits i) others).take k).map (idOf traits)).toFinset

/-- Models the consolidation of the generated views in the main flow of
script 2 (lines 134–183): the per-view hyperedge lists are concatenated into
one accumulator list and deduplicated into `final_hyperedge_list_loaded`.
(The embedding carries the three views that are themselves embedded here;
the remaining views of the script are consolidated in exactly the same
way.) -/
def extract_all_views {α : Type} [LinearOrderedCommRing α]
    (traits : List (ℤ × List α)) (k : ℕ) (individuals : List (ℤ × ℤ))
    (min_family_size : ℕ) (ids : List ℤ) (d : ℕ → ℕ → α)
    (dist_threshold : α) (min_size : ℕ) : List (Finset ℤ) :=
  unique_hyperedges
    (get_trait_knn_hyperedges traits k ++
      get_family_hyperedges individuals min_family_size ++
      get_genetic_distance_threshold_hyperedges ids d dist_threshold min_size)

/-- Concrete genetic-distance matrix of scenario C: four individuals, zero
diagonal, every off-diagonal entry 1/2 except the pair (0, 1) at 1/20. -/
def dScenC : ℕ → ℕ → ℚ := fun i j =>
  if i = j then 0
  else if (i = 0 ∧ j = 1) ∨ (i = 1 ∧ j = 0) then mkRat 1 20
  else mkRat 1 2

/-- Concrete genetic-distance matrix for the C5 counterexample: two
individuals at distance 1/20 from each other, zero diagonal. -/
def dPair : ℕ → ℕ → ℚ := fun i j => if i = j then 0 else mkRat 1 20

/-- Concrete traits table for the C7 counterexample: three individuals whose
ids are NOT in row order (ids 5, 2, 1 at rows 0, 1, 2), with one-dimensional
trait values 0, 1, -1, so that rows 1 and 2 are equidistant from row 0. -/
def traitsTieEx : List (ℤ × List ℤ) :=
  [(5, [0]), (2, [1]), (1, [-1])]

/-! ### Helper lemmas -/

/-- One row of the threshold view, as the source computes it with lists,
coincides with its declarative finite-set description. -/
theorem genetic_threshold_row_eq_spec {α : Type} [LinearOrder α] (ids : List ℤ)
    (d : ℕ → ℕ → α) (t : α) (m : ℕ) (i : ℕ) :
    genetic_threshold_row ids d t m i = genetic_threshold_row_spec ids d t m i := by
  have hlen : ((Finset.range ids.length).filter (fun j => d i j < t)).card =
      ((List.range ids.length).filter (fun j => decide (d i j < t))).length := by
    rw [← List.toFinset_card_of_nodup ((List.nodup_range ids.length).filter _)]
    congr 1
    ext x
    simp
  have himg : ((Finset.range ids.length).filter (fun j => d i j < t)).image
        (fun j => ids.getD j 0) =
      (((List.range ids.length).filter (fun j => decide (d i j < t))).map
        (fun j => ids.getD j 0)).toFinset := by
    ext x
    simp
  rw [genetic_threshold_row, genetic_threshold_row_spec]
  simp only [List.length_map, hlen, himg]

/-!  ### Claim theorems -/

/-- C1, counterexample: a loaded hyperedge with exactly one member is NOT
rejected during loading/validation — on the input `[[5]]` the size-1 member
set `{5}` is passed straight to the HyperNetX constructor. -/
theorem C1_counterexample :
    hyperedges_for_hnx_constructor [[5]] = [{5}] ∧ ({5} : Finset ℤ).card = 1 := by
  constructor
  · decide
  · decide

/-- C1, amended: at hypergraph construction only EMPTY hyperedges are dropped
(silently, with no error raised): every hyperedge handed to the constructor is
non-empty, and every non-empty loaded hyperedge — a single-member one
included — is admitted. -/
theorem C1_amended :
    ∀ loaded : List (List ℤ),
      (∀ s ∈ hyperedges_for_hnx_constructor loaded, s ≠ ∅) ∧
      (∀ he ∈ loaded, he.toFinset ≠ ∅ →
        he.toFinset ∈ hyperedges_for_hnx_constructor loaded) := by
  intro loaded
  constructor
  · intro s hs
    rw [hyperedges_for_hnx_constructor, List.mem_filterMap] at hs
    obtain ⟨a, -, ha⟩ := hs
    by_cases h : a.toFinset = ∅
    · simp [h] at ha
    · simp only [h, if_false, Option.some.injEq] at ha
      exact ha ▸ h
  · intro he hhe hne
    rw [hyperedges_for_hnx_constructor, List.mem_filterMap]
    exact ⟨he, hhe, by simp [hne]⟩

/-- C1, witness for the amended theorem at the concrete input `[[5]]`. -/
theorem C1_amended_witness :
    ({5} : Finset ℤ) ≠ ∅ ∧ ({5} : Finset ℤ) ∈ hyperedges_for_hnx_constructor [[5]] := by
  refine ⟨by decide, ?_⟩
  exact (C1_amended [[5]]).2 [5] (by decide) (by decide)

/-- C3, counterexample: handed a structure with zero hyperedges, script 4
exits with an error before any community detection happens — it does not
return an empty partition, nor a singleton-per-node one (shown here with an
arbitrary concrete detector). -/
theorem C3_counterexample :
    script4_run [] [] (fun _ => []) =
      Except.error "No valid hyperedges found in the loaded structure file to construct H." :=
  rfl

/-- C3, amended: whenever the loaded structure contains zero non-empty
hyperedges, the clustering script reports an error and stops without invoking
the community detector, so no partition of any kind is produced. -/
theorem C3_amended (nodes_from_file : List ℤ) (raw : List (List ℤ))
    (kumar : Hypergraph → List (Finset ℤ))
    (h : ∀ he ∈ raw, he.toFinset = ∅) :
    script4_run nodes_from_file raw kumar =
      Except.error "No valid hyperedges found in the loaded structure file to construct H." := by
  have hnil : hyperedges_for_hnx_constructor raw = [] :=
    List.filterMap_eq_nil_iff.mpr (fun a ha => by simp [h a ha])
  simp [script4_run, script4_import, hnil, Except.map]

/-- C3, witness for the amended theorem: a structure holding one empty
hyperedge list. -/
theorem C3_amended_witness :
    (∀ he ∈ [([] : List ℤ)], he.toFinset = ∅) ∧
      script4_run [] [[]] (fun _ => []) =
        Except.error "No valid hyperedges found in the loaded structure file to construct H." :=
  ⟨by decide, C3_amended [] [[]] (fun _ => []) (by decide)⟩

/-- C4 (scenario C): on the four-individual symmetric zero-diagonal matrix
with all off-diagonal entries 1/2 except the pair (0, 1) at 1/20, the
threshold view with threshold 1/10 and minimum size 2 yields, after
deduplication, exactly the one hyperedge of size 2 holding that pair. -/
theorem C4_scenarioC :
    get_genetic_distance_threshold_hyperedges [0, 1, 2, 3] dScenC (mkRat 1 10) 2 =
        [{0, 1}] ∧
      ({0, 1} : Finset ℤ).card = 2 ∧
      (mkRat 1 10 : ℚ) = 1 / 10 ∧ (mkRat 1 20 : ℚ) = 1 / 20 ∧
      (mkRat 1 2 : ℚ) = 1 / 2 := by
  refine ⟨by decide, by decide, ?_, ?_, ?_⟩ <;> norm_num [Rat.mkRat_eq_div]

/-- C5, counterexample: on the two-individual matrix with distance 1/20 and
threshold 1/10, minimum size 2, the source emits the hyperedge `{0, 1}` (each
row's below-threshold set includes the row itself through its zero diagonal
entry), whereas collecting only the OTHER individuals, as the claim states,
would emit nothing. -/
theorem C5_counterexample :
    get_genetic_distance_threshold_hyperedges [0, 1] dPair (mkRat 1 10) 2 = [{0, 1}] ∧
      genetic_distance_threshold_view_as_claimed [0, 1] dPair (mkRat 1 10) 2 = [] := by
  constructor
  · decide
  · decide

/-- C5, amended: for every row the view collects the set of ALL column
positions at distance strictly below the threshold — the focal individual
included whenever its diagonal entry is — and emits the hyperedge of the
corresponding ids exactly when the number of selected positions reaches the
minimum size. -/
theorem C5_amended {α : Type} [LinearOrder α] (ids : List ℤ) (d : ℕ → ℕ → α)
    (t : α) (m : ℕ) :
    get_genetic_distance_threshold_hyperedges ids d t m =
      unique_hyperedges
        ((List.range ids.length).filterMap (genetic_threshold_row_spec ids d t m)) := by
  rw [get_genetic_distance_threshold_hyperedges]
  congr 1
  exact List.filterMap_congr (fun i _ => genetic_threshold_row_eq_spec ids d t m i)

/-- C6: consolidation is idempotent, and permuting the input leaves the
resulting set of hyperedges unchanged (hyperedges compare by member set). -/
theorem C6_consolidation (X Y : List (Finset ℤ)) (h : X.Perm Y) :
    unique_hyperedges (unique_hyperedges X) = unique_hyperedges X ∧
      (unique_hyperedges X).toFinset = (unique_hyperedges Y).toFinset := by
  refine ⟨List.dedup_idem, ?_⟩
  ext s
  simp [unique_hyperedges, h.mem_iff]

/-- C6, witness at a concrete permuted pair of view collections. -/
theorem C6_consolidation_witness :
    ([({1} : Finset ℤ), {2}, {1}].Perm [{2}, {1}, {1}]) ∧
      (unique_hyperedges [({1} : Finset ℤ), {2}, {1}]).toFinset =
        (unique_hyperedges [({2} : Finset ℤ), {1}, {1}]).toFinset :=
  ⟨by decide, (C6_consolidation [{1}, {2}, {1}] [{2}, {1}, {1}] (by decide)).2⟩

/-- C8 (scenario B): with individuals 1, 2, 3 in family 0, individuals 4, 5 in
family 1 and individuals 6, 7 carrying the sentinel family id -1, the family
view at minimum size 2 emits exactly the two hyperedges `{1,2,3}` and `{4,5}`;
the sentinel rows contribute to no hyperedge even though two of them share
the value -1. -/
theorem C8_scenarioB :
    (get_family_hyperedges [(1, 0), (2, 0), (3, 0), (4, 1), (5, 1), (6, -1), (7, -1)] 2).toFinset =
        {({1, 2, 3} : Finset ℤ), {4, 5}} ∧
      (get_family_hyperedges [(1, 0), (2, 0), (3, 0), (4, 1), (5, 1), (6, -1), (7, -1)] 2).length = 2 := by
  constructor
  · decide
  · decide

/-- C10: whenever the diagonal entry of row `i` is zero and the threshold is
strictly positive, row `i` passes its own below-threshold test, so any
hyperedge the threshold view emits for row `i` contains individual `i`'s id. -/
theorem C10_self_membership {α : Type} [LinearOrder α] [Zero α] (ids : List ℤ)
    (d : ℕ → ℕ → α) (t : α) (m : ℕ) (i : ℕ) (e : Finset ℤ)
    (hi : i < ids.length) (hdiag : d i i = 0) (ht : 0 < t)
    (he : genetic_threshold_row ids d t m i = some e) :
    ids.getD i 0 ∈ e := by
  rw [genetic_threshold_row] at he
  split_ifs at he with h
  · obtain rfl : _ = e := Option.some.inj he
    rw [List.mem_toFinset, List.mem_map]
    refine ⟨i, ?_, rfl⟩
    rw [List.mem_filter]
    refine ⟨List.mem_range.mpr hi, ?_⟩
    simpa [hdiag] using ht

/-- C10, witness: the all-zero 2×2 matrix with threshold 1/10 and minimum
size 2 emits `{7, 8}` for row 0, and id 7 belongs to it. -/
theorem C10_self_membership_witness :
    genetic_threshold_row [7, 8] (fun _ _ => (0 : ℚ)) (mkRat 1 10) 2 0 = some {7, 8} ∧
      (7 : ℤ) ∈ ({7, 8} : Finset ℤ) :=
  ⟨by decide,
    C10_self_membership [7, 8] (fun _ _ => (0 : ℚ)) (mkRat 1 10) 2 0 {7, 8}
      (by decide) rfl (by decide) (by decide)⟩

/-- Preparing the exported (sorted) hyperedge lists for the HyperNetX
constructor recovers the original hyperedges, as long as none is empty. -/
theorem hnx_prep_sorted (l : List (Finset ℤ)) (h : ∀ e ∈ l, e ≠ ∅) :
    hyperedges_for_hnx_constructor (l.map (fun e => e.sort (· ≤ ·))) = l := by
  induction l with
  | nil => rfl
  | cons e tl ih =>
    have he : e ≠ ∅ := h e (List.mem_cons_self e tl)
    have htl := ih (fun x hx => h x (List.mem_cons_of_mem e hx))
    rw [hyperedges_for_hnx_constructor] at htl ⊢
    rw [List.map_cons, List.filterMap_cons]
    simp only [Finset.sort_toFinset, if_neg he]
    rw [htl]

/-- C2: re-importing the exported structure of a hypergraph built by the
pipeline (at least one hyperedge, none of them empty) succeeds and
reconstructs a hypergraph with the same node set and the same set of
hyperedge member-sets. -/
theorem C2_round_trip (H : Hypergraph) (hne : H.edgeList ≠ [])
    (h : ∀ e ∈ H.edgeList, e ≠ ∅) :
    ∃ H', script4_import (export_nodes H) (export_hyperedges H) = Except.ok H' ∧
      H'.nodes = H.nodes ∧ H'.edgeSet = H.edgeSet := by
  refine ⟨H, ?_, rfl, rfl⟩
  rw [script4_import, export_hyperedges, hnx_prep_sorted H.edgeList h]
  simp [hne]

/-- C2, witness at the one-edge hypergraph with hyperedge `{1, 2}`. -/
theorem C2_round_trip_witness :
    (Hypergraph.mk [{1, 2}]).edgeList ≠ [] ∧
      (∃ H', script4_import (export_nodes ⟨[{1, 2}]⟩) (export_hyperedges ⟨[{1, 2}]⟩) =
          Except.ok H' ∧
        H'.nodes = (Hypergraph.mk [{1, 2}]).nodes ∧
        H'.edgeSet = (Hypergraph.mk [{1, 2}]).edgeSet) :=
  ⟨by decide, C2_round_trip ⟨[{1, 2}]⟩ (by decide) (by decide)⟩

/-- C9: two runs on equal inputs — equal raw tables, equal parameters, equal
structure file, and the same (seed-fixed, hence equal) detector function —
produce the same consolidated hyperedge list and the same cluster-assignment
table; the pipeline stages are pure functions of their inputs. -/
theorem C9_two_run_determinism {α : Type} [LinearOrderedCommRing α]
    (traits traits' : List (ℤ × List α)) (k k' : ℕ)
    (individuals individuals' : List (ℤ × ℤ)) (mf mf' : ℕ)
    (ids ids' : List ℤ) (d d' : ℕ → ℕ → α) (t t' : α) (ms ms' : ℕ)
    (nodes nodes' : List ℤ) (raw raw' : List (List ℤ))
    (kumar kumar' : Hypergraph → List (Finset ℤ))
    (h1 : traits = traits') (h2 : k = k') (h3 : individuals = individuals')
    (h4 : mf = mf') (h5 : ids = ids') (h6 : d = d') (h7 : t = t')
    (h8 : ms = ms') (h9 : nodes = nodes') (h10 : raw = raw')
    (h11 : kumar = kumar') :
    extract_all_views traits k individuals mf ids d t ms =
        extract_all_views traits' k' individuals' mf' ids' d' t' ms' ∧
      script4_run nodes raw kumar = script4_run nodes' raw' kumar' := by
  subst h1 h2 h3 h4 h5 h6 h7 h8 h9 h10 h11
  exact ⟨rfl, rfl⟩

/-- C9, witness: a concrete double run on identical inputs. -/
theorem C9_two_run_determinism_witness :
    extract_all_views ([(1, [0])] : List (ℤ × List ℤ)) 3 [(1, 0)] 2 [1]
        (fun _ _ => 0) 0 2 =
      extract_all_views ([(1, [0])] : List (ℤ × List ℤ)) 3 [(1, 0)] 2 [1]
        (fun _ _ => 0) 0 2 ∧
      script4_run [1, 2] [[1, 2]] (fun _ => [{1, 2}]) =
        script4_run [1, 2] [[1, 2]] (fun _ => [{1, 2}]) :=
  C9_two_run_determinism _ _ _ _ _ _ _ _ _ _ _ _ _ _ _ _ _ _ _ _ _ _
    rfl rfl rfl rfl rfl rfl rfl rfl rfl rfl rfl


/-- A nodup list whose element `a` is a lower bound sorts to `a` followed by
the sorted rest. -/
theorem insertionSort_eq_cons_filter {β : Type} [DecidableEq β]
    (r : β → β → Prop) [DecidableRel r] [IsTotal β r] [IsTrans β r]
    [IsAntisymm β r] (l : List β) (hl : l.Nodup) (a : β) (ha : a ∈ l)
    (hmin : ∀ b ∈ l, b ≠ a → r a b) :
    List.insertionSort r l =
      a :: List.insertionSort r (l.filter (fun x => x != a)) := by
  have hperm : (List.insertionSort r l).Perm
      (a :: List.insertionSort r (l.filter (fun x => x != a))) := by
    refine (List.perm_insertionSort r l).trans ?_
    refine (List.perm_cons_erase ha).trans ?_
    rw [hl.erase_eq_filter a]
    exact ((List.perm_insertionSort r _).symm.cons a)
  have hs1 : List.Sorted r (List.insertionSort r l) :=
    List.sorted_insertionSort r l
  have hs2 : List.Sorted r
      (a :: List.insertionSort r (l.filter (fun x => x != a))) := by
    rw [List.sorted_cons]
    refine ⟨?_, List.sorted_insertionSort r _⟩
    intro b hb
    rw [List.mem_insertionSort, List.mem_filter] at hb
    exact hmin b hb.1 (by simpa using hb.2)
  exact List.eq_of_perm_of_sorted hperm hs1 hs2

/-- The squared distance of a vector to itself vanishes. -/
theorem sqdist_self {α : Type} [LinearOrderedCommRing α] (u : List α) :
    sqdist u u = 0 := by
  induction u with
  | nil => rfl
  | cons x u ih =>
    simp only [sqdist, List.zip_cons_cons, List.map_cons, List.sum_cons] at ih ⊢
    simp [ih]

/-- Squared distances are nonnegative. -/
theorem sqdist_nonneg {α : Type} [LinearOrderedCommRing α] (u v : List α) :
    0 ≤ sqdist u v := by
  apply List.sum_nonneg
  intro x hx
  rw [List.mem_map] at hx
  obtain ⟨p, -, rfl⟩ := hx
  exact sq_nonneg _

/-- C7, counterexample: with ids (5, 2, 1) at rows (0, 1, 2) and rows 1 and 2
equidistant from row 0, the source forms the row-0 hyperedge `{5, 2}` (the
tie is resolved towards the earlier ROW), while breaking the tie by ascending
IDENTIFIER, as the claim states, would give `{5, 1}`. -/
theorem C7_counterexample :
    trait_knn_row traitsTieEx 1 0 = {5, 2} ∧
      trait_knn_row_as_claimed traitsTieEx 1 0 = {5, 1} ∧
      ({5, 2} : Finset ℤ) ≠ {5, 1} := by
  refine ⟨by decide, by decide, by decide⟩

/-- C7, amended: provided no other row's trait vector lies at (squared)
distance zero from the focal row's, and the ids are pairwise distinct, the
trait k-NN view forms for the focal row a hyperedge of size k + 1 equal to
the focal individual together with its k nearest other rows by Euclidean
distance, ties broken by ascending distance and then ascending row
position. -/
theorem C7_amended {α : Type} [LinearOrderedCommRing α]
    (traits : List (ℤ × List α)) (k i : ℕ)
    (hi : i < traits.length)
    (hids : (traits.map Prod.fst).Nodup)
    (hd : ∀ j < traits.length, j ≠ i →
      sqdist (vecOf traits i) (vecOf traits j) ≠ 0)
    (hk : k + 1 ≤ traits.length) :
    trait_knn_row traits k i = trait_knn_row_amended traits k i ∧
      (trait_knn_row traits k i).card = k + 1 := by
  have hmin : ∀ b ∈ List.range traits.length, b ≠ i → knnOrder traits i i b := by
    intro b hb hbi
    have h0 : sqdist (vecOf traits i) (vecOf traits i) = 0 := sqdist_self _
    have hpos : 0 < sqdist (vecOf traits i) (vecOf traits b) :=
      lt_of_le_of_ne (sqdist_nonneg _ _)
        (Ne.symm (hd b (List.mem_range.mp hb) hbi))
    refine Or.inl ?_
    show sqdist (vecOf traits i) (vecOf traits i) <
      sqdist (vecOf traits i) (vecOf traits b)
    rw [h0]
    exact hpos
  have hsplit := insertionSort_eq_cons_filter (knnOrder traits i)
    (List.range traits.length) (List.nodup_range traits.length) i
    (List.mem_range.mpr hi) hmin
  have hknn : kneighbors traits k i =
      i :: (List.insertionSort (knnOrder traits i)
        ((List.range traits.length).filter (fun x => x != i))).take k := by
    rw [kneighbors, hsplit, List.take_succ_cons]
  have hlenT : (List.insertionSort (knnOrder traits i)
      ((List.range traits.length).filter (fun x => x != i))).length =
      traits.length - 1 := by
    rw [List.length_insertionSort,
      ← (List.nodup_range traits.length).erase_eq_filter i,
      List.length_erase_of_mem (List.mem_range.mpr hi), List.length_range]
  constructor
  · rw [trait_knn_row, trait_knn_row_amended, hknn, List.map_cons,
      List.toFinset_cons]
  · have hsub : List.Sublist (kneighbors traits k i)
        (List.insertionSort (knnOrder traits i) (List.range traits.length)) := by
      rw [kneighbors]
      exact List.take_sublist _ _
    have hnodupS : (List.insertionSort (knnOrder traits i)
        (List.range traits.length)).Nodup :=
      ((List.perm_insertionSort _ _).nodup_iff).mpr (List.nodup_range _)
    have hnodupM : (kneighbors traits k i).Nodup := hnodupS.sublist hsub
    have hmem : ∀ x ∈ kneighbors traits k i, x < traits.length := by
      intro x hx
      have hx2 := hsub.subset hx
      rw [List.mem_insertionSort, List.mem_range] at hx2
      exact hx2
    have hinj : ∀ x ∈ kneighbors traits k i, ∀ y ∈ kneighbors traits k i,
        idOf traits x = idOf traits y → x = y := by
      intro x hx y hy hxy
      have hxn := hmem x hx
      have hyn := hmem y hy
      have hxn' : x < (traits.map Prod.fst).length := by simpa using hxn
      have hyn' : y < (traits.map Prod.fst).length := by simpa using hyn
      have ex : idOf traits x = (traits.map Prod.fst).get ⟨x, hxn'⟩ := by
        rw [idOf, List.getD_eq_getElem _ _ hxn]
        simp
      have ey : idOf traits y = (traits.map Prod.fst).get ⟨y, hyn'⟩ := by
        rw [idOf, List.getD_eq_getElem _ _ hyn]
        simp
      rw [ex, ey] at hxy
      have := (hids.get_inj_iff).mp hxy
      exact congrArg Fin.val this
    have hmapnodup : ((kneighbors traits k i).map (idOf traits)).Nodup :=
      List.Nodup.map_on hinj hnodupM
    rw [trait_knn_row, List.toFinset_card_of_nodup hmapnodup, List.length_map]
    rw [hknn, List.length_cons, List.length_take, hlenT]
    have hk' : k ≤ traits.length - 1 := by omega
    rw [min_eq_left hk']

/-- C7, witness for the amended theorem at the tie example: the row-0
hyperedge has exactly 1 + 1 members. -/
theorem C7_amended_witness :
    0 < traitsTieEx.length ∧ (trait_knn_row traitsTieEx 1 0).card = 1 + 1 :=
  ⟨by decide,
    (C7_amended traitsTieEx 1 0 (by decide) (by decide) (by decide) (by decide)).2⟩
